import Mathlib

/-!
Shallow embedding of the Fourier-series epicycle animation core
(`main.py`: `FourierSeries`, `WaveTracer`, `Simulation`) and proofs of the
specification claims about it.

The Python code works with IEEE doubles and `math.cos`/`math.sin`/`math.pi`.
The embedding is parametric over a linear ordered field `F` together with
explicit parameters `piv : F` (for `math.pi`) and `fcos fsin : F → F` (for the
trigonometric functions): every structural claim of the specification (segment
counts, chaining, the algebraic form of each step, clamping, state updates)
holds for all such parameters, and concrete witnesses instantiate `F := ℚ`.
Rendering-only data (colors, fonts, surfaces) is out of scope per the spec and
is not part of the state.
-/

namespace FourierSim

/-- The waveform kind held by `FourierSeries.series_type` ("square" or
"sawtooth" in the Python source). -/
inductive SeriesType where
  | square
  | sawtooth
deriving DecidableEq

/-- `FourierSeries.toggle`: flips square ↔ sawtooth. -/
def SeriesType.toggle : SeriesType → SeriesType
  | .square => .sawtooth
  | .sawtooth => .square

/-- The triple `(radius, freq, direction)` returned by
`FourierSeries.get_term`. -/
structure Term (F : Type) where
  radius : F
  freq : ℕ
  direction : ℤ
deriving DecidableEq

variable {F : Type} [LinearOrderedField F]

/-- `FourierSeries.get_term(term_index)`: for square, `n = 2*term_index + 1`,
`radius = 4/(pi*n)`, `freq = n`, `direction = 1`; for sawtooth, `n =
term_index + 1`, `radius = 2/(pi*n)`, `freq = n`, `direction = 1 if n % 2 else
-1`. -/
def get_term (piv : F) (t : SeriesType) (term_index : ℕ) : Term F :=
  match t with
  | .square => ⟨4 / (piv * (2 * term_index + 1 : ℕ)), 2 * term_index + 1, 1⟩
  | .sawtooth =>
      ⟨2 / (piv * (term_index + 1 : ℕ)), term_index + 1,
        if (term_index + 1) % 2 = 1 then 1 else -1⟩

/-- The `WaveTracer` state: origin x-coordinate, eviction bound (the window
width), scroll speed, and the point list (the Python points are `[x, y]`
pairs, newest first). -/
structure WaveTracer (F : Type) where
  origin_x : F
  max_width : F
  speed : F
  points : List (F × F)
deriving DecidableEq

/-- `WaveTracer.reset`: clears the point list. -/
def WaveTracer.reset (w : WaveTracer F) : WaveTracer F :=
  { w with points := [] }

/-- `WaveTracer.add(y)`: inserts `[origin_x, y]` at the front. -/
def WaveTracer.add (w : WaveTracer F) (y : F) : WaveTracer F :=
  { w with points := (w.origin_x, y) :: w.points }

/-- `WaveTracer.update`: adds `speed` to every point's x, then keeps exactly
the points with `x < max_width`. -/
def WaveTracer.update (w : WaveTracer F) : WaveTracer F :=
  { w with
    points := (w.points.map (fun p => (p.1 + w.speed, p.2))).filter
      (fun p => decide (p.1 < w.max_width)) }

/-- One chain segment as appended to `Simulation.epicycles`: the 5-tuple
`(x0, y0, x, y, r)`. -/
structure Epicycle (F : Type) where
  sx : F
  sy : F
  ex : F
  ey : F
  r : F
deriving DecidableEq

/-- The rotation angle of one term:
`angle = direction * freq * time * 2 * pi * rotation_speed`. -/
def term_angle (piv time rot : F) (tm : Term F) : F :=
  (tm.direction : F) * (tm.freq : F) * time * 2 * piv * rot

/-- One iteration of the `Simulation._update_epicycles` loop body: starting at
cursor `xy`, advance by `(scale*radius*cos angle, scale*radius*sin angle)` and
record the segment with radius `|scale*radius|`. -/
def chain_step (piv : F) (fcos fsin : F → F) (time scale rot : F)
    (tm : Term F) (xy : F × F) : Epicycle F :=
  ⟨xy.1, xy.2,
   xy.1 + scale * tm.radius * fcos (term_angle piv time rot tm),
   xy.2 + scale * tm.radius * fsin (term_angle piv time rot tm),
   |scale * tm.radius|⟩

/-- The `Simulation._update_epicycles` loop: from term index `i` with `n`
remaining terms and cursor `xy`, emit the segments in order and return the
final cursor (the tip). -/
def evalChain (piv : F) (fcos fsin : F → F) (t : SeriesType)
    (time scale rot : F) : ℕ → ℕ → F × F → List (Epicycle F) × (F × F)
  | _, 0, xy => ([], xy)
  | i, n + 1, xy =>
      let seg := chain_step piv fcos fsin time scale rot (get_term piv t i) xy
      let rest := evalChain piv fcos fsin t time scale rot (i + 1) n
        (seg.ex, seg.ey)
      (seg :: rest.1, rest.2)

/-- The mutable `Simulation` state (presentation-only fields omitted). -/
structure Simulation (F : Type) where
  time : F
  paused : Bool
  time_speed : F
  time_step : F
  num_terms : ℤ
  max_terms : ℤ
  scale : F
  rotation_speed : F
  center_x : F
  center_y : F
  wave : WaveTracer F
  series_type : SeriesType
  epicycles : List (Epicycle F)
  end_point : F × F
deriving DecidableEq

/-- The configuration values `Simulation.__init__` reads (window width,
animation, fourier and layout sections). -/
structure Config (F : Type) where
  window_width : F
  time_speed : F
  time_step : F
  initial_terms : ℤ
  max_terms : ℤ
  function : SeriesType
  scale : F
  wave_speed : F
  rotation_speed : F
  epicycle_center : F × F
  wave_origin_x : F
deriving DecidableEq

/-- `Simulation.__init__(config)`: stores the configuration values as-is (the
source performs no range validation), starts with `time = 0`,
`paused = False`, an empty trace and an empty chain with `end_point = (0,0)`. -/
def Simulation.init (cfg : Config F) : Simulation F :=
  { time := 0
    paused := false
    time_speed := cfg.time_speed
    time_step := cfg.time_step
    num_terms := cfg.initial_terms
    max_terms := cfg.max_terms
    scale := cfg.scale
    rotation_speed := cfg.rotation_speed
    center_x := cfg.epicycle_center.1
    center_y := cfg.epicycle_center.2
    wave :=
      { origin_x := cfg.wave_origin_x
        max_width := cfg.window_width
        speed := cfg.wave_speed
        points := [] }
    series_type := cfg.function
    epicycles := []
    end_point := (0, 0) }

/-- `Simulation.change_terms(d)`:
`num_terms = max(1, min(num_terms + d, max_terms))`. -/
def Simulation.change_terms (s : Simulation F) (d : ℤ) : Simulation F :=
  { s with num_terms := max 1 (min (s.num_terms + d) s.max_terms) }

/-- `Simulation.toggle_pause`: flips the paused flag. -/
def Simulation.toggle_pause (s : Simulation F) : Simulation F :=
  { s with paused := !s.paused }

/-- `Simulation.toggle_function`: flips the series kind, clears the trace and
resets `time` to 0. -/
def Simulation.toggle_function (s : Simulation F) : Simulation F :=
  { s with series_type := s.series_type.toggle
           wave := s.wave.reset
           time := 0 }

/-- `Simulation.reset`: clears the trace and resets `time` to 0. -/
def Simulation.reset (s : Simulation F) : Simulation F :=
  { s with wave := s.wave.reset, time := 0 }

/-- `Simulation._update_epicycles`: rebuild the chain from the anchor
`(center_x, center_y)` over `num_terms` terms, store the tip in `end_point`
and add the tip's y to the trace. -/
def Simulation.update_epicycles (piv : F) (fcos fsin : F → F)
    (s : Simulation F) : Simulation F :=
  let res := evalChain piv fcos fsin s.series_type s.time s.scale
    s.rotation_speed 0 s.num_terms.toNat (s.center_x, s.center_y)
  { s with epicycles := res.1
           end_point := res.2
           wave := s.wave.add res.2.2 }

/-- `Simulation.update`: no-op while paused; otherwise advance `time` by
`time_step * time_speed`, rebuild the chain (which also adds the tip sample
to the trace), then advance the trace. -/
def Simulation.update (piv : F) (fcos fsin : F → F)
    (s : Simulation F) : Simulation F :=
  if s.paused then s
  else
    let s1 := { s with time := s.time + s.time_step * s.time_speed }
    let s2 := s1.update_epicycles piv fcos fsin
    { s2 with wave := s2.wave.update }

/-- The `[` key handler in `main`:
`rotation_speed = max(0.05, rotation_speed - 0.05)`. -/
def Simulation.rot_speed_down (s : Simulation F) : Simulation F :=
  { s with rotation_speed := max (5 / 100) (s.rotation_speed - 5 / 100) }

/-- The `]` key handler in `main`: `rotation_speed += 0.05` (no clamping). -/
def Simulation.rot_speed_up (s : Simulation F) : Simulation F :=
  { s with rotation_speed := s.rotation_speed + 5 / 100 }

/-! ### Claim C2: the harmonic-term formulas -/

/-- C2: for every index `i ≥ 0`, the square-wave term has `n = 2*i + 1`,
amplitude `4/(pi*n)`, frequency multiplier `n` and direction `+1`; the
sawtooth term has `n = i + 1`, amplitude `2/(pi*n)`, frequency multiplier `n`,
and direction `+1` exactly when `n` is odd, `-1` exactly when `n` is even. -/
theorem get_term_formulas (piv : F) (i : ℕ) :
    (get_term piv .square i).radius = 4 / (piv * (2 * (i : F) + 1)) ∧
    (get_term piv .square i).freq = 2 * i + 1 ∧
    (get_term piv .square i).direction = 1 ∧
    (get_term piv .sawtooth i).radius = 2 / (piv * ((i : F) + 1)) ∧
    (get_term piv .sawtooth i).freq = i + 1 ∧
    ((get_term piv .sawtooth i).direction = 1 ↔ Odd (i + 1)) ∧
    ((get_term piv .sawtooth i).direction = -1 ↔ Even (i + 1)) := by
  refine ⟨?_, rfl, rfl, ?_, rfl, ?_, ?_⟩
  · simp [get_term]
  · simp [get_term]
  · by_cases h : (i + 1) % 2 = 1
    · simp [get_term, h, Nat.odd_iff]
    · simp [get_term, h, Nat.odd_iff]
  · by_cases h : (i + 1) % 2 = 1
    · simp [get_term, h, Nat.even_iff]
    · simp [get_term, h, Nat.even_iff]
      omega

/-! ### Claim C7: update is a no-op while paused -/

/-- C7: when the simulation is paused, `update` returns the state unchanged:
elapsed time, chain, tip position and trace are exactly as before. -/
theorem update_paused_noop (piv : F) (fcos fsin : F → F) (s : Simulation F)
    (hp : s.paused = true) :
    Simulation.update piv fcos fsin s = s := by
  simp [Simulation.update, hp]

/-- A concrete simulation state over `ℚ` used by witnesses and
counterexamples, mirroring the default configuration. -/
def simA : Simulation ℚ :=
  { time := 0
    paused := false
    time_speed := 1
    time_step := 7 / 2000
    num_terms := 5
    max_terms := 60
    scale := 150
    rotation_speed := 11 / 50
    center_x := 350
    center_y := 600
    wave :=
      { origin_x := 750
        max_width := 2000
        speed := 8 / 5
        points := [] }
    series_type := .square
    epicycles := []
    end_point := (0, 0) }

/-- Witness for C7 at a concrete paused state. -/
theorem update_paused_noop_witness :
    ({ simA with paused := true } : Simulation ℚ).paused = true ∧
    Simulation.update 3 (fun _ => 1) (fun _ => 0)
      ({ simA with paused := true } : Simulation ℚ) =
      { simA with paused := true } :=
  ⟨rfl, update_paused_noop 3 (fun _ => 1) (fun _ => 0) _ rfl⟩

/-! ### Claim C8: toggling the waveform -/

/-- C8: `toggle_function` flips the series kind between square and sawtooth
(so the kind always changes), leaves the trace with no points, and sets the
elapsed time to exactly 0, from any state. -/
theorem toggle_function_spec (s : Simulation F) :
    (s.toggle_function).wave.points = [] ∧
    (s.toggle_function).time = 0 ∧
    (s.toggle_function).series_type = s.series_type.toggle ∧
    (s.toggle_function).series_type ≠ s.series_type ∧
    SeriesType.square.toggle = .sawtooth ∧
    SeriesType.sawtooth.toggle = .square := by
  refine ⟨rfl, rfl, rfl, ?_, rfl, rfl⟩
  cases h : s.series_type <;>
    simp [Simulation.toggle_function, SeriesType.toggle, h]

/-! ### Claim C5: the term count stays in `[1, max_terms]` -/

set_option linter.unusedSectionVars false in
/-- C5: starting from a term count in `[1, max_terms]`, any sequence of
`change_terms` calls with arbitrary signed deltas leaves the term count in
`[1, max_terms]` (in particular never zero), and never changes `max_terms`. -/
theorem change_terms_bounds (s : Simulation F) (ds : List ℤ)
    (h1 : 1 ≤ s.num_terms) (h2 : s.num_terms ≤ s.max_terms) :
    1 ≤ (ds.foldl Simulation.change_terms s).num_terms ∧
    (ds.foldl Simulation.change_terms s).num_terms ≤
      (ds.foldl Simulation.change_terms s).max_terms ∧
    (ds.foldl Simulation.change_terms s).max_terms = s.max_terms := by
  induction ds generalizing s with
  | nil => exact ⟨h1, h2, rfl⟩
  | cons d ds ih =>
      have hmax : (1 : ℤ) ≤ s.max_terms := h1.trans h2
      have h1' : 1 ≤ (s.change_terms d).num_terms := le_max_left _ _
      have h2' : (s.change_terms d).num_terms ≤ (s.change_terms d).max_terms :=
        max_le hmax (min_le_right _ _)
      simpa [List.foldl_cons] using ih (s.change_terms d) h1' h2'

/-- Witness for C5 at a concrete state and delta sequence. -/
theorem change_terms_bounds_witness :
    ((1 : ℤ) ≤ simA.num_terms ∧ simA.num_terms ≤ simA.max_terms) ∧
    1 ≤ (([100, -200, 3] : List ℤ).foldl Simulation.change_terms
      simA).num_terms :=
  ⟨⟨by decide, by decide⟩,
    (change_terms_bounds simA [100, -200, 3] (by decide) (by decide)).1⟩

/-! ### Claim C6: rotation-speed adjustment (corrected) -/

/-- C6 counterexample: from a state with `rotation_speed = -1`, the increase
key handler produces `-0.95`, which is below the `0.05` floor and differs
from `max(0.05, rotation_speed + 0.05)`: the increase path does not clamp. -/
theorem rot_speed_up_cex :
    (Simulation.rot_speed_up
        ({ simA with rotation_speed := -1 } : Simulation ℚ)).rotation_speed <
      5 / 100 ∧
    (Simulation.rot_speed_up
        ({ simA with rotation_speed := -1 } : Simulation ℚ)).rotation_speed ≠
      max (5 / 100)
        (({ simA with rotation_speed := -1 } : Simulation ℚ).rotation_speed +
          5 / 100) := by
  have h1 : (Simulation.rot_speed_up
      ({ simA with rotation_speed := -1 } : Simulation ℚ)).rotation_speed =
      -1 + 5 / 100 := rfl
  have h2 : (({ simA with rotation_speed := -1 } : Simulation ℚ)).rotation_speed
      = -1 := rfl
  rw [h1, h2]
  constructor
  · norm_num
  · have hm : max (5 / 100 : ℚ) (-1 + 5 / 100) = 5 / 100 :=
      max_eq_left (by norm_num)
    rw [hm]
    norm_num

/-- C6 (amended): the decrease handler sets
`rotation_speed = max(0.05, rotation_speed - 0.05)` and therefore never goes
below the `0.05` floor; the increase handler adds `0.05` without clamping,
and preserves being at or above the floor when already there. -/
theorem rot_speed_clamp (s : Simulation F) :
    (s.rot_speed_down).rotation_speed =
      max (5 / 100) (s.rotation_speed - 5 / 100) ∧
    (5 / 100 : F) ≤ (s.rot_speed_down).rotation_speed ∧
    (s.rot_speed_up).rotation_speed = s.rotation_speed + 5 / 100 ∧
    ((5 / 100 : F) ≤ s.rotation_speed →
      (5 / 100 : F) ≤ (s.rot_speed_up).rotation_speed) := by
  refine ⟨rfl, le_max_left _ _, rfl, ?_⟩
  intro h
  have h0 : (0 : F) ≤ 5 / 100 := by positivity
  show (5 / 100 : F) ≤ s.rotation_speed + 5 / 100
  linarith

/-- Witness for C6's amended claim at a concrete state. -/
theorem rot_speed_clamp_witness :
    (5 / 100 : ℚ) ≤ simA.rotation_speed ∧
    (5 / 100 : ℚ) ≤ (Simulation.rot_speed_up simA).rotation_speed :=
  ⟨by norm_num [simA], (rot_speed_clamp simA).2.2.2 (by norm_num [simA])⟩

/-! ### Claim C3: construction does not validate (corrected) -/

/-- A configuration with non-positive max term count, zero time step and zero
scale, which the spec says must be rejected at construction. -/
def badConfig : Config ℚ :=
  { window_width := 2000
    time_speed := 1
    time_step := 0
    initial_terms := 5
    max_terms := 0
    function := .square
    scale := 0
    wave_speed := 8 / 5
    rotation_speed := 11 / 50
    epicycle_center := (350, 600)
    wave_origin_x := 750 }

/-- C3 counterexample: constructing with `max_terms = 0`, `time_step = 0` and
`scale = 0` does not fail: it produces a simulation object that stores the
degenerate values as-is and is ready to run (not paused), contradicting the
claim that such configurations are rejected at construction time. -/
theorem init_no_validation_cex :
    (Simulation.init badConfig).max_terms = 0 ∧
    (Simulation.init badConfig).time_step = 0 ∧
    (Simulation.init badConfig).scale = 0 ∧
    (Simulation.init badConfig).paused = false ∧
    (Simulation.init badConfig).num_terms = 5 :=
  ⟨rfl, rfl, rfl, rfl, rfl⟩

/-- C3 (amended): construction performs no validation and always produces a
simulation object: every configuration value, including non-positive
`max_terms`, `time_step` and `scale`, is stored as-is, with time 0, not
paused, and an empty trace. -/
theorem init_total_spec (cfg : Config F) :
    (Simulation.init cfg).max_terms = cfg.max_terms ∧
    (Simulation.init cfg).time_step = cfg.time_step ∧
    (Simulation.init cfg).scale = cfg.scale ∧
    (Simulation.init cfg).num_terms = cfg.initial_terms ∧
    (Simulation.init cfg).time = 0 ∧
    (Simulation.init cfg).paused = false ∧
    (Simulation.init cfg).wave.points = [] :=
  ⟨rfl, rfl, rfl, rfl, rfl, rfl, rfl⟩

/-! ### Claim C9: elapsed time strictly increases (corrected) -/

/-- C9 counterexample: an unpaused simulation with positive fixed
`time_step = 1` but `time_speed = 0` keeps `elapsedTime` exactly constant
across an update: two consecutive unpaused ticks have equal elapsed time. -/
theorem update_time_const_cex :
    ({ simA with time_speed := 0, time_step := 1 } : Simulation ℚ).paused =
      false ∧
    (0 : ℚ) <
      ({ simA with time_speed := 0, time_step := 1 } : Simulation ℚ).time_step ∧
    (Simulation.update 3 (fun _ => 1) (fun _ => 0)
        ({ simA with time_speed := 0, time_step := 1 } : Simulation ℚ)).time =
      ({ simA with time_speed := 0, time_step := 1 } : Simulation ℚ).time := by
  refine ⟨rfl, by norm_num, ?_⟩
  simp [Simulation.update, Simulation.update_epicycles, simA]

/-- An update never changes the paused flag, the time step, or the time-speed
multiplier. -/
theorem update_preserves_params (piv : F) (fcos fsin : F → F)
    (s : Simulation F) :
    (Simulation.update piv fcos fsin s).paused = s.paused ∧
    (Simulation.update piv fcos fsin s).time_step = s.time_step ∧
    (Simulation.update piv fcos fsin s).time_speed = s.time_speed := by
  by_cases h : s.paused = true <;>
    simp [Simulation.update, Simulation.update_epicycles, h]

/-- Iterated updates never change the paused flag, the time step, or the
time-speed multiplier. -/
theorem update_iterate_params (piv : F) (fcos fsin : F → F)
    (s : Simulation F) (k : ℕ) :
    ((Simulation.update piv fcos fsin)^[k] s).paused = s.paused ∧
    ((Simulation.update piv fcos fsin)^[k] s).time_step = s.time_step ∧
    ((Simulation.update piv fcos fsin)^[k] s).time_speed = s.time_speed := by
  induction k with
  | zero => exact ⟨rfl, rfl, rfl⟩
  | succ k ih =>
      rw [Function.iterate_succ_apply']
      have h := update_preserves_params piv fcos fsin
        ((Simulation.update piv fcos fsin)^[k] s)
      exact ⟨h.1.trans ih.1, h.2.1.trans ih.2.1, h.2.2.trans ih.2.2⟩

/-- While unpaused, one update advances the elapsed time by exactly
`time_step * time_speed`. -/
theorem update_time_step (piv : F) (fcos fsin : F → F) (s : Simulation F)
    (hp : s.paused = false) :
    (Simulation.update piv fcos fsin s).time =
      s.time + s.time_step * s.time_speed := by
  simp [Simulation.update, Simulation.update_epicycles, hp]

/-- C9 (amended): for an unpaused simulation whose per-tick increment
`time_step * time_speed` is positive, repeated updates produce strictly
increasing elapsed times: consecutive ticks never have equal elapsed time. -/
theorem update_time_strict_mono (piv : F) (fcos fsin : F → F)
    (s : Simulation F) (hp : s.paused = false)
    (hpos : 0 < s.time_step * s.time_speed) (k : ℕ) :
    ((Simulation.update piv fcos fsin)^[k] s).time <
      ((Simulation.update piv fcos fsin)^[k + 1] s).time := by
  have hf := update_iterate_params piv fcos fsin s k
  rw [Function.iterate_succ_apply',
    update_time_step piv fcos fsin _ (hf.1.trans hp), hf.2.1, hf.2.2]
  linarith

/-- Witness for C9's amended claim at a concrete state. -/
theorem update_time_strict_mono_witness :
    (simA.paused = false ∧ (0 : ℚ) < simA.time_step * simA.time_speed) ∧
    ((Simulation.update 3 (fun _ => 1) (fun _ => 0))^[1] simA).time <
      ((Simulation.update 3 (fun _ => 1) (fun _ => 0))^[1 + 1] simA).time :=
  ⟨⟨rfl, by norm_num [simA]⟩,
    update_time_strict_mono 3 (fun _ => 1) (fun _ => 0) simA rfl
      (by norm_num [simA]) 1⟩

/-! ### Claim C4: trace advancement and eviction -/

/-- After `k ≥ 1` advances, a tracer holding the single point `(a, b)` holds
`(a + k * speed, b)` if that x is still left of `max_width`, and is empty
otherwise (the point is evicted as soon as its x reaches the bound, and with
non-negative speed it stays evicted). -/
theorem update_iterate_single (w : WaveTracer F) (a b : F)
    (hsp : 0 ≤ w.speed) :
    ∀ k : ℕ, 1 ≤ k →
      WaveTracer.update^[k] ({ w with points := [(a, b)] } : WaveTracer F) =
        { w with points :=
            if w.max_width ≤ a + k * w.speed then []
            else [(a + (k : F) * w.speed, b)] } := by
  intro k
  induction k with
  | zero => omega
  | succ k ih =>
      intro _
      rcases Nat.eq_zero_or_pos k with hk | hk
      · subst hk
        rw [Function.iterate_one]
        by_cases h : a + w.speed < w.max_width
        · rw [if_neg (by push_cast; simpa using not_le.mpr h)]
          simp [WaveTracer.update, List.filter, h]
        · rw [if_pos (by push_cast; simpa using not_lt.mp h)]
          simp [WaveTracer.update, List.filter, h]
      · rw [Function.iterate_succ_apply', ih hk]
        by_cases h : w.max_width ≤ a + k * w.speed
        · rw [if_pos h]
          have h' : w.max_width ≤ a + (k + 1 : ℕ) * w.speed := by
            push_cast
            have : (k : F) * w.speed ≤ ((k : F) + 1) * w.speed := by nlinarith
            push_cast at h
            linarith
          rw [if_pos h']
          simp [WaveTracer.update]
        · rw [if_neg h]
          have harith : a + (k : F) * w.speed + w.speed =
              a + (k + 1 : ℕ) * w.speed := by push_cast; ring
          by_cases h2 : a + (k + 1 : ℕ) * w.speed < w.max_width
          · rw [if_neg (not_le.mpr h2)]
            simp only [WaveTracer.update, List.map_cons, List.map_nil,
              List.filter, harith]
            push_cast at h2
            simp [h2]
          · rw [if_pos (not_lt.mp h2)]
            simp only [WaveTracer.update, List.map_cons, List.map_nil,
              List.filter, harith]
            push_cast at h2
            simp [h2]

/-- C4: `update` advances every point's x by `speed`, keeps exactly the
points whose new x is still below `max_width` while preserving their relative
order (the result is a sublist of the shifted list), and a point added by a
single `add(y)` is evicted by the `k`-th advance exactly when its accumulated
travel `k * speed` has carried it to or past the bound. -/
theorem wave_advance_spec (w : WaveTracer F) (y : F) (k : ℕ)
    (hsp : 0 ≤ w.speed) (hk : 1 ≤ k) :
    (w.update).points.Sublist (w.points.map (fun p => (p.1 + w.speed, p.2))) ∧
    (∀ p ∈ w.points,
      ((p.1 + w.speed, p.2) ∈ (w.update).points ↔
        p.1 + w.speed < w.max_width)) ∧
    (∀ q ∈ (w.update).points, q.1 < w.max_width) ∧
    ((WaveTracer.update^[k]
        ((({ w with points := [] } : WaveTracer F)).add y)).points = [] ↔
      w.max_width ≤ w.origin_x + (k : F) * w.speed) := by
  refine ⟨List.filter_sublist _, ?_, ?_, ?_⟩
  · intro p hp
    constructor
    · intro hmem
      have := List.mem_filter.mp hmem
      simpa using this.2
    · intro hlt
      exact List.mem_filter.mpr
        ⟨List.mem_map_of_mem _ hp, by simpa using hlt⟩
  · intro q hq
    have := List.mem_filter.mp hq
    simpa using this.2
  · have hadd : (({ w with points := [] } : WaveTracer F)).add y =
        { w with points := [(w.origin_x, y)] } := rfl
    rw [hadd, update_iterate_single w w.origin_x y hsp k hk]
    by_cases h : w.max_width ≤ w.origin_x + (k : F) * w.speed
    · simp [h]
    · simp [h]

/-- Witness for C4 at a concrete tracer, sample and advance count. -/
theorem wave_advance_spec_witness :
    ((0 : ℚ) ≤ simA.wave.speed ∧ (1 : ℕ) ≤ 1000) ∧
    ((WaveTracer.update^[1000]
        ((({ simA.wave with points := [] } : WaveTracer ℚ)).add 2)).points =
        [] ↔
      simA.wave.max_width ≤ simA.wave.origin_x +
        ((1000 : ℕ) : ℚ) * simA.wave.speed) :=
  ⟨⟨by norm_num [simA], by norm_num⟩,
    (wave_advance_spec simA.wave 2 1000 (by norm_num [simA])
      (by norm_num)).2.2.2⟩

/-! ### Claim C1: the epicycle-chain evaluation -/

section Chain

variable (piv : F) (fcos fsin : F → F) (t : SeriesType) (time scale rot : F)

/-- Unfolding `evalChain` at zero remaining terms. -/
theorem evalChain_zero (i : ℕ) (xy : F × F) :
    evalChain piv fcos fsin t time scale rot i 0 xy = ([], xy) := rfl

/-- Unfolding one iteration of `evalChain`. -/
theorem evalChain_succ (i n : ℕ) (xy : F × F) :
    evalChain piv fcos fsin t time scale rot i (n + 1) xy =
      (chain_step piv fcos fsin time scale rot (get_term piv t i) xy ::
        (evalChain piv fcos fsin t time scale rot (i + 1) n
          ((chain_step piv fcos fsin time scale rot (get_term piv t i) xy).ex,
           (chain_step piv fcos fsin time scale rot
             (get_term piv t i) xy).ey)).1,
       (evalChain piv fcos fsin t time scale rot (i + 1) n
          ((chain_step piv fcos fsin time scale rot (get_term piv t i) xy).ex,
           (chain_step piv fcos fsin time scale rot
             (get_term piv t i) xy).ey)).2) := rfl

/-- The chain over `n` terms has exactly `n` segments. -/
theorem evalChain_length (n : ℕ) :
    ∀ (i : ℕ) (xy : F × F),
      (evalChain piv fcos fsin t time scale rot i n xy).1.length = n := by
  induction n with
  | zero => intro i xy; rfl
  | succ n ih =>
      intro i xy
      rw [evalChain_succ]
      simp [ih]

/-- Every segment of the chain is a `chain_step` of the term at its index. -/
theorem evalChain_get_isStep (n : ℕ) :
    ∀ (i j : ℕ) (xy : F × F), j < n →
      ∃ cur : F × F,
        (evalChain piv fcos fsin t time scale rot i n xy).1[j]? =
          some (chain_step piv fcos fsin time scale rot
            (get_term piv t (i + j)) cur) := by
  induction n with
  | zero => intro i j xy h; exact absurd h (Nat.not_lt_zero j)
  | succ n ih =>
      intro i j xy _
      rw [evalChain_succ]
      cases j with
      | zero => exact ⟨xy, by simp⟩
      | succ j =>
          simp only [List.getElem?_cons_succ]
          obtain ⟨cur, hcur⟩ := ih (i + 1) j
            ((chain_step piv fcos fsin time scale rot (get_term piv t i) xy).ex,
             (chain_step piv fcos fsin time scale rot
               (get_term piv t i) xy).ey) (by omega)
          refine ⟨cur, ?_⟩
          have hidx : i + 1 + j = i + (j + 1) := by omega
          rw [hidx] at hcur
          exact hcur

/-- The first segment of a non-empty chain starts at the cursor. -/
theorem evalChain_head_start (n i : ℕ) (xy : F × F) (h : 0 < n) :
    ∃ e, (evalChain piv fcos fsin t time scale rot i n xy).1[0]? = some e ∧
      e.sx = xy.1 ∧ e.sy = xy.2 := by
  cases n with
  | zero => exact absurd h (lt_irrefl 0)
  | succ n =>
      rw [evalChain_succ]
      exact ⟨chain_step piv fcos fsin time scale rot (get_term piv t i) xy,
        by simp, rfl, rfl⟩

/-- Consecutive segments of the chain are chained end-to-start. -/
theorem evalChain_chained (n : ℕ) :
    ∀ (i j : ℕ) (xy : F × F) (a b : Epicycle F),
      (evalChain piv fcos fsin t time scale rot i n xy).1[j]? = some a →
      (evalChain piv fcos fsin t time scale rot i n xy).1[j + 1]? = some b →
      a.ex = b.sx ∧ a.ey = b.sy := by
  induction n with
  | zero =>
      intro i j xy a b ha _
      rw [evalChain_zero] at ha
      simp at ha
  | succ n ih =>
      intro i j xy a b ha hb
      rw [evalChain_succ] at ha hb
      cases j with
      | zero =>
          simp only [List.getElem?_cons_zero, Option.some.injEq] at ha
          simp only [List.getElem?_cons_succ] at hb
          have hn : 0 < n := by
            by_contra hn0
            have : n = 0 := by omega
            subst this
            rw [evalChain_zero] at hb
            simp at hb
          obtain ⟨e, he, hex, hey⟩ := evalChain_head_start piv fcos fsin t time
            scale rot n (i + 1)
            ((chain_step piv fcos fsin time scale rot (get_term piv t i) xy).ex,
             (chain_step piv fcos fsin time scale rot
               (get_term piv t i) xy).ey) hn
          rw [he] at hb
          cases hb
          cases ha
          exact ⟨hex.symm, hey.symm⟩
      | succ j =>
          simp only [List.getElem?_cons_succ] at ha hb
          exact ih (i + 1) j _ a b ha hb

/-- The reported tip of a non-empty chain is the last segment's endpoint. -/
theorem evalChain_tip (n : ℕ) :
    ∀ (i : ℕ) (xy : F × F), 0 < n →
      ∃ e, (evalChain piv fcos fsin t time scale rot i n xy).1.getLast? =
          some e ∧
        (evalChain piv fcos fsin t time scale rot i n xy).2 = (e.ex, e.ey) := by
  induction n with
  | zero => intro i xy h; exact absurd h (lt_irrefl 0)
  | succ n ih =>
      intro i xy _
      rw [evalChain_succ]
      rcases Nat.eq_zero_or_pos n with hn | hn
      · subst hn
        refine ⟨chain_step piv fcos fsin time scale rot (get_term piv t i) xy,
          ?_, ?_⟩ <;> simp [evalChain_zero]
      · obtain ⟨e, he, htip⟩ := ih (i + 1)
          ((chain_step piv fcos fsin time scale rot (get_term piv t i) xy).ex,
           (chain_step piv fcos fsin time scale rot
             (get_term piv t i) xy).ey) hn
        refine ⟨e, ?_, htip⟩
        have hne : (evalChain piv fcos fsin t time scale rot (i + 1) n
            ((chain_step piv fcos fsin time scale rot
              (get_term piv t i) xy).ex,
             (chain_step piv fcos fsin time scale rot
               (get_term piv t i) xy).ey)).1 ≠ [] := by
          intro hnil
          have := evalChain_length piv fcos fsin t time scale rot n (i + 1)
            ((chain_step piv fcos fsin time scale rot
              (get_term piv t i) xy).ex,
             (chain_step piv fcos fsin time scale rot
               (get_term piv t i) xy).ey)
          rw [hnil] at this
          simp at this
          omega
        cases hrest : (evalChain piv fcos fsin t time scale rot (i + 1) n
            ((chain_step piv fcos fsin time scale rot
              (get_term piv t i) xy).ex,
             (chain_step piv fcos fsin time scale rot
               (get_term piv t i) xy).ey)).1 with
        | nil => exact absurd hrest hne
        | cons c cs =>
            rw [hrest] at he
            rw [List.getLast?_cons_cons]
            exact he

end Chain

/-- C1: for every waveform kind, term count `T ≥ 1`, elapsed time, rotation
speed, scale and anchor, the chain evaluation returns exactly `T` segments
chained end-to-start with segment 0 starting at the anchor; each segment `j`
advances its start by `(scale*amplitude*cos angle, scale*amplitude*sin angle)`
with `angle = direction * freq * time * 2 * pi * rotation_speed` and radius
`|scale*amplitude|` for the `j`-th harmonic term; and the reported tip equals
the last segment's endpoint. -/
theorem epicycle_chain_spec (piv : F) (fcos fsin : F → F) (t : SeriesType)
    (time scale rot : F) (anchor : F × F) (T : ℕ)
    (segs : List (Epicycle F)) (tip : F × F) (hT : 1 ≤ T)
    (heq : evalChain piv fcos fsin t time scale rot 0 T anchor =
      (segs, tip)) :
    segs.length = T ∧
    (∀ a, segs[0]? = some a → a.sx = anchor.1 ∧ a.sy = anchor.2) ∧
    (∀ j a b, segs[j]? = some a → segs[j + 1]? = some b →
      a.ex = b.sx ∧ a.ey = b.sy) ∧
    (∀ j a, segs[j]? = some a →
      a.ex = a.sx + scale * (get_term piv t j).radius *
        fcos (term_angle piv time rot (get_term piv t j)) ∧
      a.ey = a.sy + scale * (get_term piv t j).radius *
        fsin (term_angle piv time rot (get_term piv t j)) ∧
      a.r = |scale * (get_term piv t j).radius|) ∧
    (∃ e, segs.getLast? = some e ∧ tip = (e.ex, e.ey)) := by
  have hs : segs = (evalChain piv fcos fsin t time scale rot 0 T anchor).1 := by
    rw [heq]
  have ht : tip = (evalChain piv fcos fsin t time scale rot 0 T anchor).2 := by
    rw [heq]
  subst hs
  subst ht
  have hlen := evalChain_length piv fcos fsin t time scale rot T 0 anchor
  refine ⟨hlen, ?_, ?_, ?_, ?_⟩
  · intro a ha
    obtain ⟨e, he, hex, hey⟩ := evalChain_head_start piv fcos fsin t time scale
      rot T 0 anchor (by omega)
    rw [he] at ha
    cases ha
    exact ⟨hex, hey⟩
  · intro j a b ha hb
    exact evalChain_chained piv fcos fsin t time scale rot T 0 j anchor a b
      ha hb
  · intro j a ha
    have hj : j < T := by
      have h1 := List.getElem?_eq_some.mp ha
      obtain ⟨hlt, _⟩ := h1
      omega
    obtain ⟨cur, hcur⟩ := evalChain_get_isStep piv fcos fsin t time scale rot
      T 0 j anchor hj
    rw [Nat.zero_add] at hcur
    rw [hcur] at ha
    cases ha
    exact ⟨rfl, rfl, rfl⟩
  · obtain ⟨e, he, htip⟩ := evalChain_tip piv fcos fsin t time scale rot T 0
      anchor (by omega)
    exact ⟨e, he, htip⟩

/-- Witness for C1 at a concrete one-term square-wave chain. -/
theorem epicycle_chain_spec_witness :
    ((1 : ℕ) ≤ 1 ∧
      evalChain (1 : ℚ) (fun _ => 1) (fun _ => 0) SeriesType.square 0 1 0 0 1
        (0, 0) = ([⟨0, 0, 4, 0, 4⟩], (4, 0))) ∧
    ([(⟨0, 0, 4, 0, 4⟩ : Epicycle ℚ)]).length = 1 := by
  have h : evalChain (1 : ℚ) (fun _ => 1) (fun _ => 0) SeriesType.square 0 1 0
      0 1 (0, 0) = ([⟨0, 0, 4, 0, 4⟩], (4, 0)) := by
    show evalChain (1 : ℚ) (fun _ => 1) (fun _ => 0) SeriesType.square 0 1 0
      0 (0 + 1) (0, 0) = ([⟨0, 0, 4, 0, 4⟩], (4, 0))
    rw [evalChain_succ, evalChain_zero]
    simp [chain_step, get_term, term_angle]
  exact ⟨⟨le_refl 1, h⟩,
    (epicycle_chain_spec 1 (fun _ => 1) (fun _ => 0) SeriesType.square 0 1 0
      (0, 0) 1 _ _ (le_refl 1) h).1⟩

/-! ### Claim C10: the newest trace point after an update -/

/-- C10: within one unpaused `update`, the tip sample is added to the trace
before the trace is advanced, so immediately after the update the newest
trace point sits at x exactly `origin_x + speed` (offset exactly `speed` from
the origin, never offset 0 since `speed > 0`), and — given that all
pre-existing points sit at or right of the origin — every surviving point's
x satisfies `origin_x + speed ≤ x < max_width`. -/
theorem update_trace_head_spec (piv : F) (fcos fsin : F → F)
    (s : Simulation F) (hp : s.paused = false) (hsp : 0 < s.wave.speed)
    (hw : s.wave.origin_x + s.wave.speed < s.wave.max_width)
    (hinv : ∀ p ∈ s.wave.points, s.wave.origin_x ≤ p.1) :
    (∃ ytip, ((Simulation.update piv fcos fsin s).wave.points).head? =
      some (s.wave.origin_x + s.wave.speed, ytip)) ∧
    (∀ p ∈ (Simulation.update piv fcos fsin s).wave.points,
      s.wave.origin_x + s.wave.speed ≤ p.1 ∧ p.1 < s.wave.max_width ∧
        p.1 ≠ s.wave.origin_x) := by
  have hupd : (Simulation.update piv fcos fsin s).wave =
      (s.wave.add ((evalChain piv fcos fsin s.series_type
        (s.time + s.time_step * s.time_speed) s.scale s.rotation_speed 0
        s.num_terms.toNat (s.center_x, s.center_y)).2.2)).update := by
    simp [Simulation.update, Simulation.update_epicycles, hp]
  set Y := (evalChain piv fcos fsin s.series_type
    (s.time + s.time_step * s.time_speed) s.scale s.rotation_speed 0
    s.num_terms.toNat (s.center_x, s.center_y)).2.2 with hY
  have hpts : (Simulation.update piv fcos fsin s).wave.points =
      (s.wave.origin_x + s.wave.speed, Y) ::
        ((s.wave.points.map (fun p => (p.1 + s.wave.speed, p.2))).filter
          (fun p => decide (p.1 < s.wave.max_width))) := by
    rw [hupd]
    simp only [WaveTracer.add, WaveTracer.update, List.map_cons]
    rw [List.filter_cons]
    simp [hw]
  constructor
  · exact ⟨Y, by rw [hpts]; rfl⟩
  · intro p hmem
    rw [hpts] at hmem
    rcases List.mem_cons.mp hmem with hhd | htl
    · subst hhd
      exact ⟨le_refl _, hw, by intro hc; simp at hc; linarith⟩
    · have h1 := List.mem_filter.mp htl
      obtain ⟨q, hq, hqeq⟩ := List.mem_map.mp h1.1
      have hq1 : s.wave.origin_x ≤ q.1 := hinv q hq
      have hle : s.wave.origin_x + s.wave.speed ≤ p.1 := by
        rw [← hqeq]
        simp only []
        linarith
      refine ⟨hle, by simpa using h1.2, ?_⟩
      intro hc
      rw [hc] at hle
      linarith

/-- Witness for C10 at a concrete unpaused state. -/
theorem update_trace_head_spec_witness :
    (simA.paused = false ∧ (0 : ℚ) < simA.wave.speed ∧
      simA.wave.origin_x + simA.wave.speed < simA.wave.max_width) ∧
    ((Simulation.update 1 (fun _ => 1) (fun _ => 0)
      simA).wave.points).head?.isSome = true := by
  have h1 : simA.paused = false := rfl
  have h2 : (0 : ℚ) < simA.wave.speed := by norm_num [simA]
  have h3 : simA.wave.origin_x + simA.wave.speed < simA.wave.max_width := by
    norm_num [simA]
  have h4 : ∀ p ∈ simA.wave.points, simA.wave.origin_x ≤ p.1 := by
    intro p hp
    simp [simA] at hp
  obtain ⟨y, hy⟩ := (update_trace_head_spec 1 (fun _ => 1) (fun _ => 0) simA
    h1 h2 h3 h4).1
  refine ⟨⟨h1, h2, h3⟩, ?_⟩
  rw [hy]
  rfl

end FourierSim
